import Mathlib

set_option maxRecDepth 8000

/-!
Verification development for a LeNet-5 MNIST training script.

The source program (src/lenet.py) defines:
  - a LeNet5 model: conv(1→6,k5) → tanh → avgpool2 → conv(6→16,k5) → tanh →
    avgpool2 → conv(16→120,k5) → tanh → flatten → linear(120→84) → tanh →
    linear(84→10), returning both the logits and their row-wise softmax;
  - get_accuracy: fraction of samples whose arg-max predicted class equals the
    true label, over a whole batch iterator;
  - train: one training epoch (forward, loss, backward, optimizer step per
    batch, running loss weighted by batch size, divided by the dataset size);
  - validate: one validation epoch (same traversal, no parameter update);
  - training_loop: runs the epochs, records loss histories, and logs accuracy
    on epochs matching the print interval.

Real-valued tensors are embedded as functions over Fin-indexed coordinates;
the training-side routines are embedded generically over a linear ordered
field so that they stay executable on rational test data.
-/

namespace LeNetRepo

/-! ### Tensor operations used by the model (torch layers, over the reals) -/

/-- An input sample of shape (1, 32, 32): one channel, 32 by 32 pixels. -/
def ImageT : Type := Fin 1 → Fin 32 → Fin 32 → ℝ

/-- Two-dimensional convolution with square kernel of size k, stride 1, no
padding, mapping a (c, s, s) feature map to an (o, s - k + 1, s - k + 1) one;
embeds nn.Conv2d with the given weight and bias. -/
def conv2d (k s : ℕ) (hk : k ≤ s)
    {ic oc : ℕ} (w : Fin oc → Fin ic → Fin k → Fin k → ℝ) (b : Fin oc → ℝ)
    (x : Fin ic → Fin s → Fin s → ℝ) :
    Fin oc → Fin (s - k + 1) → Fin (s - k + 1) → ℝ :=
  fun o i j => b o + ∑ c : Fin ic, ∑ a : Fin k, ∑ d : Fin k,
    w o c a d * x c ⟨i.val + a.val, by omega⟩ ⟨j.val + d.val, by omega⟩

/-- Average pooling with kernel 2 (and default stride 2), halving both spatial
dimensions; embeds nn.AvgPool2d with kernel size 2. -/
noncomputable def avgPool2d (s : ℕ) {c : ℕ} (x : Fin c → Fin (2 * s) → Fin (2 * s) → ℝ) :
    Fin c → Fin s → Fin s → ℝ :=
  fun ch i j =>
    (x ch ⟨2 * i.val, by omega⟩ ⟨2 * j.val, by omega⟩ +
     x ch ⟨2 * i.val, by omega⟩ ⟨2 * j.val + 1, by omega⟩ +
     x ch ⟨2 * i.val + 1, by omega⟩ ⟨2 * j.val, by omega⟩ +
     x ch ⟨2 * i.val + 1, by omega⟩ ⟨2 * j.val + 1, by omega⟩) / 4

/-- Pointwise hyperbolic tangent on a (c, h, h) feature map; embeds nn.Tanh
applied inside the feature extractor. -/
noncomputable def tanhMap {c h : ℕ} (x : Fin c → Fin h → Fin h → ℝ) :
    Fin c → Fin h → Fin h → ℝ :=
  fun ch i j => Real.tanh (x ch i j)

/-- Pointwise hyperbolic tangent on a vector; embeds nn.Tanh inside the
classifier head. -/
noncomputable def tanhVec {n : ℕ} (v : Fin n → ℝ) : Fin n → ℝ :=
  fun i => Real.tanh (v i)

/-- Flattening of a (c, 1, 1) feature map into a vector of length c; embeds
torch.flatten(x, 1) as used on the (120, 1, 1) extractor output. -/
def flattenC {c : ℕ} (x : Fin c → Fin 1 → Fin 1 → ℝ) : Fin c → ℝ :=
  fun ch => x ch 0 0

/-- Affine layer y = W x + b; embeds nn.Linear with the given weight and
bias. -/
def linear {i o : ℕ} (w : Fin o → Fin i → ℝ) (b : Fin o → ℝ)
    (x : Fin i → ℝ) : Fin o → ℝ :=
  fun j => b j + ∑ k : Fin i, w j k * x k

/-- Row-wise softmax on a vector of n scores; embeds F.softmax(logits, dim=1)
applied to one row. -/
noncomputable def softmax {n : ℕ} (v : Fin n → ℝ) : Fin n → ℝ :=
  fun i => Real.exp (v i) / ∑ j : Fin n, Real.exp (v j)

/-! ### The LeNet5 model (src/lenet.py, class LeNet5) -/

/-- Parameters of the LeNet5 model: the three convolution layers of the
feature extractor and the two affine layers of the classifier, exactly the
trainable tensors created in the constructor. -/
structure LeNet5 where
  c1w : Fin 6 → Fin 1 → Fin 5 → Fin 5 → ℝ
  c1b : Fin 6 → ℝ
  c2w : Fin 16 → Fin 6 → Fin 5 → Fin 5 → ℝ
  c2b : Fin 16 → ℝ
  c3w : Fin 120 → Fin 16 → Fin 5 → Fin 5 → ℝ
  c3b : Fin 120 → ℝ
  l1w : Fin 84 → Fin 120 → ℝ
  l1b : Fin 84 → ℝ
  l2w : Fin 10 → Fin 84 → ℝ
  l2b : Fin 10 → ℝ

/-- The feature extractor: conv(1→6, k5) → tanh → avgpool2 → conv(6→16, k5) →
tanh → avgpool2 → conv(16→120, k5) → tanh, taking a (1, 32, 32) image to a
(120, 1, 1) feature map. -/
noncomputable def LeNet5.featureExtractor (m : LeNet5) (x : ImageT) :
    Fin 120 → Fin 1 → Fin 1 → ℝ :=
  let f1 := tanhMap (conv2d 5 32 (by norm_num) m.c1w m.c1b x)
  let p1 := avgPool2d 14 f1
  let f2 := tanhMap (conv2d 5 14 (by norm_num) m.c2w m.c2b p1)
  let p2 := avgPool2d 5 f2
  tanhMap (conv2d 5 5 (by norm_num) m.c3w m.c3b p2)

/-- The classifier head: linear(120→84) → tanh → linear(84→10). -/
noncomputable def LeNet5.classifier (m : LeNet5) (v : Fin 120 → ℝ) :
    Fin 10 → ℝ :=
  linear m.l2w m.l2b (tanhVec (linear m.l1w m.l1b v))

/-- Forward pass on one sample: extract features, flatten, classify, and also
return the softmax probabilities; embeds LeNet5.forward restricted to one row
of the batch (every layer acts independently on each row). -/
noncomputable def LeNet5.forward (m : LeNet5) (x : ImageT) :
    (Fin 10 → ℝ) × (Fin 10 → ℝ) :=
  let logits := m.classifier (flattenC (m.featureExtractor x))
  (logits, softmax logits)

/-- Forward pass on a batch of N samples, giving the (N, 10) logits tensor and
the (N, 10) probability tensor as lists of rows. -/
noncomputable def LeNet5.forwardBatch (m : LeNet5) (xs : List ImageT) :
    List (Fin 10 → ℝ) × List (Fin 10 → ℝ) :=
  (xs.map fun x => (m.forward x).1, xs.map fun x => (m.forward x).2)

/-! ### Generic training-side routines (src/lenet.py, top level)

The accuracy, epoch and loop routines never look inside the tensor library:
they only use the model through its forward function, the loss through its
value on a batch, and the optimizer through the state update of one backward
and step. They are embedded generically: a model is a parameter value of some
type M together with a forward map G into (logits, probs) rows, a loss
criterion C maps a batch of logits and labels to a scalar, and one
backward-plus-optimizer step is a state update on M and the optimizer state O.
The scalar field is a parameter so the routines stay executable over ℚ. -/

section Training

variable {α : Type*} [LinearOrderedField α] {I M O : Type*}

/-- Index of the row maximum, as returned by torch.max(y_prob, 1): scan the 10
entries in order and keep the first index attaining the maximum. -/
def maxIdx (v : Fin 10 → α) : Fin 10 :=
  (List.finRange 10).foldl (fun a i => if v a < v i then i else a) 0

/-- The loop of get_accuracy: fold over the batches, accumulating the sample
count n (a Python int) and the correct-prediction count correct_pred, which
starts as the plain int 0 and becomes a tensor (tagged some) as soon as one
batch is added to it. One batch is a list of (input row, true label) pairs;
the prediction of a row is the arg-max of the probability output of the
model. -/
def accuracyLoop (G : M → I → (Fin 10 → α) × (Fin 10 → α)) (m : M)
    (L : List (List (I × Fin 10))) : ℕ × Option ℕ :=
  L.foldl
    (fun p b =>
      (p.1 + b.length,
       some (p.2.getD 0 + b.countP fun s => maxIdx (G m s.1).2 == s.2)))
    (0, none)

/-- get_accuracy: run the accuracy loop over the whole iterator and return
correct_pred.float() / n. When no batch was seen, correct_pred is still the
plain int 0, which has no .float() method: the call fails, embedded as
none. -/
def get_accuracy (G : M → I → (Fin 10 → α) × (Fin 10 → α)) (m : M)
    (L : List (List (I × Fin 10))) : Option α :=
  match accuracyLoop G m L with
  | (_, none) => none
  | (n, some c) => some ((c : α) / (n : α))

/-- Spec-side variant of get_accuracy that predicts from the logits row
instead of the probability row, used to compare the two prediction rules. -/
def get_accuracy_from_logits (G : M → I → (Fin 10 → α) × (Fin 10 → α))
    (m : M) (L : List (List (I × Fin 10))) : Option α :=
  match L.foldl
      (fun (p : ℕ × Option ℕ) b =>
        (p.1 + b.length,
         some (p.2.getD 0 + b.countP fun s => maxIdx (G m s.1).1 == s.2)))
      (0, none) with
  | (_, none) => none
  | (n, some c) => some ((c : α) / (n : α))

/-- A DataLoader: the underlying dataset and the finite sequence of batches
one traversal yields. A well-formed loader's batches partition the dataset
(in shuffled order for the training loader). -/
structure Loader (I : Type*) where
  dataset : List (I × Fin 10)
  batches : List (List (I × Fin 10))

/-- The body of the batch loop of train: given the current (model, optimizer,
running_loss) state and one batch, compute the logits (y_hat is the first
component of the model output), the loss value under the criterion, add loss
times batch size to running_loss, and let the backward pass plus optimizer
step update the model and optimizer state. -/
def trainStep (G : M → I → (Fin 10 → α) × (Fin 10 → α))
    (C : List (Fin 10 → α) → List (Fin 10) → α)
    (step : M → O → List (I × Fin 10) → M × O) :
    (M × O × α) → List (I × Fin 10) → (M × O × α) :=
  fun s b =>
    let l := C (b.map fun p => (G s.1 p.1).1) (b.map Prod.snd)
    let mo := step s.1 s.2.1 b
    (mo.1, mo.2, s.2.2 + l * (b.length : α))

/-- train: one training epoch. Fold the batch loop body over the batches in
the iterator's order, starting from running_loss = 0, and return the updated
model, the updated optimizer, and running_loss divided by the size of the
loader's dataset. -/
def train (G : M → I → (Fin 10 → α) × (Fin 10 → α))
    (C : List (Fin 10 → α) → List (Fin 10) → α)
    (step : M → O → List (I × Fin 10) → M × O)
    (L : Loader I) (m : M) (o : O) : M × O × α :=
  let r := L.batches.foldl (trainStep G C step) (m, o, (0 : α))
  (r.1, r.2.1, r.2.2 / (L.dataset.length : α))

/-- The body of the batch loop of validate: same loss accumulation as the
training loop body, but the model is only read, never updated. -/
def validStep (G : M → I → (Fin 10 → α) × (Fin 10 → α))
    (C : List (Fin 10 → α) → List (Fin 10) → α) (m : M) :
    α → List (I × Fin 10) → α :=
  fun r b =>
    r + C (b.map fun p => (G m p.1).1) (b.map Prod.snd) * (b.length : α)

/-- validate: one validation epoch. Same batch traversal and loss
accumulation as train, but no backward pass and no optimizer step: the model
is returned unchanged together with the mean loss. -/
def validate (G : M → I → (Fin 10 → α) × (Fin 10 → α))
    (C : List (Fin 10 → α) → List (Fin 10) → α)
    (L : Loader I) (m : M) : M × α :=
  let rl := L.batches.foldl (validStep G C m) (0 : α)
  (m, rl / (L.dataset.length : α))

/-- The body of the epoch loop of training_loop: run one training epoch,
append its loss to the training history, run one validation epoch on the
updated model, append its loss to the validation history, and when the epoch
index satisfies epoch % print_every = print_every - 1, measure train and
validation accuracy and emit one log line (embedded as a log entry carrying
the epoch index and the two accuracies). -/
def epochStep (G : M → I → (Fin 10 → α) × (Fin 10 → α))
    (C : List (Fin 10 → α) → List (Fin 10) → α)
    (step : M → O → List (I × Fin 10) → M × O)
    (TL VL : Loader I) (p : ℕ) :
    (M × O × List α × List α × List (ℕ × Option α × Option α)) → ℕ →
    (M × O × List α × List α × List (ℕ × Option α × Option α)) :=
  fun s e =>
    let t := train G C step TL s.1 s.2.1
    let tls := s.2.2.1 ++ [t.2.2]
    let v := validate G C VL t.1
    let vls := s.2.2.2.1 ++ [v.2]
    let lg :=
      if e % p = p - 1 then
        s.2.2.2.2 ++
          [(e, get_accuracy G v.1 TL.batches, get_accuracy G v.1 VL.batches)]
      else s.2.2.2.2
    (v.1, t.2.1, tls, vls, lg)

/-- training_loop: fold the epoch body over the epoch indices 0..epochs-1,
starting from empty histories and an empty log. Returns the final model and
optimizer, the two loss histories, and the log. -/
def training_loop (G : M → I → (Fin 10 → α) × (Fin 10 → α))
    (C : List (Fin 10 → α) → List (Fin 10) → α)
    (step : M → O → List (I × Fin 10) → M × O)
    (TL VL : Loader I) (m : M) (o : O) (epochs p : ℕ) :
    M × O × (List α × List α) × List (ℕ × Option α × Option α) :=
  let r := (List.range epochs).foldl (epochStep G C step TL VL p)
    (m, o, ([], [], []))
  (r.1, r.2.1, (r.2.2.1, r.2.2.2.1), r.2.2.2.2)

/-- The sum the training epoch accumulates, written as a structural recursion
over the batch sequence: the loss of each batch, evaluated at the model state
reached after stepping through all earlier batches in order, weighted by the
batch size. -/
def weightedLossSum (G : M → I → (Fin 10 → α) × (Fin 10 → α))
    (C : List (Fin 10 → α) → List (Fin 10) → α)
    (step : M → O → List (I × Fin 10) → M × O) :
    M → O → List (List (I × Fin 10)) → α
  | _, _, [] => 0
  | m, o, b :: t =>
      C (b.map fun p => (G m p.1).1) (b.map Prod.snd) * (b.length : α) +
        weightedLossSum G C step (step m o b).1 (step m o b).2 t

/-- The model and optimizer state reached by stepping through a batch
sequence in order. -/
def runBatches (step : M → O → List (I × Fin 10) → M × O) :
    M → O → List (List (I × Fin 10)) → M × O
  | m, o, [] => (m, o)
  | m, o, b :: t => runBatches step (step m o b).1 (step m o b).2 t

end Training

/-! ### Basic facts about softmax -/

lemma sum_exp_pos {n : ℕ} (hn : 0 < n) (v : Fin n → ℝ) :
    0 < ∑ j : Fin n, Real.exp (v j) :=
  Finset.sum_pos (fun j _ => Real.exp_pos (v j))
    (Finset.univ_nonempty_iff.mpr (Fin.pos_iff_nonempty.mp hn))

lemma softmax_nonneg {n : ℕ} (v : Fin n → ℝ) (i : Fin n) :
    0 ≤ softmax v i := by
  have hi : i.val < n := i.isLt
  have h : 0 < ∑ j : Fin n, Real.exp (v j) := sum_exp_pos (by omega) v
  exact div_nonneg (Real.exp_pos (v i)).le h.le

lemma softmax_sum_one {n : ℕ} (hn : 0 < n) (v : Fin n → ℝ) :
    ∑ i : Fin n, softmax v i = 1 := by
  have h : 0 < ∑ j : Fin n, Real.exp (v j) := sum_exp_pos hn v
  unfold softmax
  rw [← Finset.sum_div, div_self h.ne']

lemma forward_snd (m : LeNet5) (x : ImageT) :
    (m.forward x).2 = softmax (m.forward x).1 := rfl

/-! ### Claim C1 -/

/-- Claim C1: for every input batch x of shape (N,1,32,32), the forward pass
returns a pair (logits, probs) where logits and probs each have shape (N,10)
(N rows of 10 class scores), probs is the row-wise softmax of the logits,
every entry of probs is non-negative, and each row of probs sums to 1. -/
theorem C1_forward_softmax_shape (net : LeNet5) (xs : List ImageT) :
    (net.forwardBatch xs).1.length = xs.length ∧
    (net.forwardBatch xs).2.length = xs.length ∧
    (net.forwardBatch xs).2 = (net.forwardBatch xs).1.map softmax ∧
    ∀ p ∈ (net.forwardBatch xs).2, (∀ i, 0 ≤ p i) ∧ ∑ i, p i = 1 := by
  refine ⟨List.length_map _ _, List.length_map _ _, ?_, ?_⟩
  · show xs.map (fun x => (net.forward x).2)
        = (xs.map fun x => (net.forward x).1).map softmax
    rw [List.map_map]
    exact List.map_congr_left fun x _ => forward_snd net x
  · intro p hp
    obtain ⟨x, _, rfl⟩ := List.mem_map.mp hp
    rw [forward_snd]
    exact ⟨fun i => softmax_nonneg _ i, softmax_sum_one (by norm_num) _⟩

/-! ### The accuracy loop, in closed form -/

section AccuracyFacts

variable {α : Type*} [LinearOrderedField α] {I M O : Type*}

lemma accuracyLoop_from (G : M → I → (Fin 10 → α) × (Fin 10 → α)) (m : M)
    (L : List (List (I × Fin 10))) (n c : ℕ) :
    L.foldl
      (fun p b =>
        (p.1 + b.length,
         some (p.2.getD 0 + b.countP fun s => maxIdx (G m s.1).2 == s.2)))
      (n, some c)
    = (n + (L.map List.length).sum,
       some (c + L.flatten.countP fun s => maxIdx (G m s.1).2 == s.2)) := by
  induction L generalizing n c with
  | nil => simp
  | cons b t ih =>
      simp only [List.foldl_cons, Option.getD_some, List.map_cons,
        List.sum_cons, List.flatten_cons, List.countP_append]
      rw [ih]
      simp only [Prod.mk.injEq, Option.some.injEq]
      omega

lemma accuracyLoop_eq (G : M → I → (Fin 10 → α) × (Fin 10 → α)) (m : M)
    (L : List (List (I × Fin 10))) (h : L ≠ []) :
    accuracyLoop G m L =
      ((L.map List.length).sum,
       some (L.flatten.countP fun s => maxIdx (G m s.1).2 == s.2)) := by
  cases L with
  | nil => exact absurd rfl h
  | cons b t =>
      unfold accuracyLoop
      simp only [List.foldl_cons, Option.getD_none, Nat.zero_add]
      rw [accuracyLoop_from]
      simp only [List.map_cons, List.sum_cons, List.flatten_cons,
        List.countP_append, Prod.mk.injEq, Option.some.injEq]

lemma get_accuracy_eq (G : M → I → (Fin 10 → α) × (Fin 10 → α)) (m : M)
    (L : List (List (I × Fin 10))) (h : L ≠ []) :
    get_accuracy G m L =
      some (((L.flatten.countP fun s => maxIdx (G m s.1).2 == s.2 : ℕ) : α) /
        ((L.flatten.length : ℕ) : α)) := by
  rw [get_accuracy, accuracyLoop_eq G m L h, List.length_flatten]

end AccuracyFacts

/-! ### Claims C2, C3, C10 (the accuracy metric) -/

/-- A concrete probe model over rational scores, used to instantiate the
generic accuracy and epoch routines on executable data: it always gives class
0 the highest probability, so its prediction is always 0. -/
def constModel : Unit → Unit → (Fin 10 → ℚ) × (Fin 10 → ℚ) :=
  fun _ _ => (fun j => if j = 0 then 1 else 0, fun j => if j = 0 then 1 else 0)

section ClaimsAccuracy

variable {α : Type*} [LinearOrderedField α] {I M O : Type*}

/-- Claim C2 counterexample: as stated the claim quantifies over every batch
iterator, but on the empty iterator get_accuracy does not return the fraction
of correct predictions: the correct-prediction count is still the plain
Python int 0, whose missing .float() method makes the final expression fail
(embedded as none). -/
theorem C2_empty_iterator_counterexample :
    get_accuracy constModel () ([] : List (List (Unit × Fin 10))) = none :=
  rfl

/-- Claim C2 (amended to non-empty iterators): for every model and every
non-empty batch iterator, get_accuracy returns the number of samples whose
predicted class (arg-max of the model's probability output) equals the true
label, divided by the total number of samples, aggregated over the entire
iterator. -/
theorem C2_accuracy_is_correct_fraction
    (G : M → I → (Fin 10 → α) × (Fin 10 → α)) (m : M)
    (L : List (List (I × Fin 10))) (h : L ≠ []) :
    get_accuracy G m L =
      some (((L.flatten.countP fun s => maxIdx (G m s.1).2 == s.2 : ℕ) : α) /
        ((L.flatten.length : ℕ) : α)) :=
  get_accuracy_eq G m L h

/-- Witness for C2: a two-sample batch where exactly the first sample is
predicted correctly gives accuracy one half. -/
theorem C2_accuracy_is_correct_fraction_witness :
    get_accuracy constModel () [[((), 0), ((), 1)]] = some ((1 : ℚ) / 2) := by
  rw [C2_accuracy_is_correct_fraction constModel ()
    [[((), 0), ((), 1)]] (by decide)]
  rfl

/-- Claim C3: for every non-empty batch iterator (every batch itself being
non-empty, as a DataLoader guarantees), get_accuracy returns a value in
[0, 1]; it returns exactly 1 when every sample's predicted label equals its
true label, and exactly 0 when every sample's predicted label differs from
its true label. -/
theorem C3_accuracy_range (G : M → I → (Fin 10 → α) × (Fin 10 → α)) (m : M)
    (L : List (List (I × Fin 10))) (h : L ≠ [])
    (h2 : ∀ b ∈ L, b ≠ []) :
    (∃ r, get_accuracy G m L = some r ∧ 0 ≤ r ∧ r ≤ 1) ∧
    ((∀ s ∈ L.flatten, maxIdx (G m s.1).2 = s.2) →
      get_accuracy G m L = some 1) ∧
    ((∀ s ∈ L.flatten, maxIdx (G m s.1).2 ≠ s.2) →
      get_accuracy G m L = some 0) := by
  have hn : 0 < L.flatten.length := by
    cases L with
    | nil => exact absurd rfl h
    | cons b t =>
        have hb : b ≠ [] := h2 b (List.mem_cons_self b t)
        simp only [List.flatten_cons, List.length_append]
        have : 0 < b.length := List.length_pos.mpr hb
        omega
  have hnα : (0 : α) < (L.flatten.length : α) := by exact_mod_cast hn
  have hcle : (L.flatten.countP fun s => maxIdx (G m s.1).2 == s.2)
      ≤ L.flatten.length := L.flatten.countP_le_length _
  refine ⟨⟨_, get_accuracy_eq G m L h, ?_, ?_⟩, ?_, ?_⟩
  · exact div_nonneg (by positivity) hnα.le
  · rw [div_le_one hnα]
    exact_mod_cast hcle
  · intro hall
    rw [get_accuracy_eq G m L h]
    have hc : (L.flatten.countP fun s => maxIdx (G m s.1).2 == s.2)
        = L.flatten.length := by
      rw [List.countP_eq_length]
      intro s hs
      exact beq_iff_eq.mpr (hall s hs)
    rw [hc, div_self hnα.ne']
  · intro hnone
    rw [get_accuracy_eq G m L h]
    have hc : (L.flatten.countP fun s => maxIdx (G m s.1).2 == s.2) = 0 := by
      rw [List.countP_eq_zero]
      intro s hs
      rw [beq_iff_eq]
      exact hnone s hs
    rw [hc]
    simp

/-- Witness for C3: on one batch of two samples with one correct prediction,
the accuracy value exists and lies in [0, 1]. -/
theorem C3_accuracy_range_witness :
    ∃ r, get_accuracy constModel () [[((), 0), ((), 1)]] = some r ∧
      0 ≤ r ∧ r ≤ 1 :=
  (C3_accuracy_range constModel () [[((), 0), ((), 1)]] (by decide)
    (by decide)).1

/-- Claim C10: on the empty batch iterator the accuracy loop ends with sample
count n = 0 and the correct-prediction count still the plain int 0 (tagged
none, never turned into a tensor), so get_accuracy does not produce a value;
on every non-empty iterator it does produce one. -/
theorem C10_empty_iterator_fails
    (G : M → I → (Fin 10 → α) × (Fin 10 → α)) (m : M) :
    accuracyLoop G m ([] : List (List (I × Fin 10))) = (0, none) ∧
    get_accuracy G m ([] : List (List (I × Fin 10))) = none ∧
    ∀ L : List (List (I × Fin 10)), L ≠ [] →
      (get_accuracy G m L).isSome := by
  refine ⟨rfl, rfl, ?_⟩
  intro L hL
  rw [get_accuracy_eq G m L hL]
  rfl

/-- Witness for C10: the probe model fails on the empty iterator and succeeds
on a singleton one. -/
theorem C10_empty_iterator_fails_witness :
    get_accuracy constModel () ([] : List (List (Unit × Fin 10))) = none ∧
    (get_accuracy constModel () [[((), 0)]]).isSome :=
  ⟨(C10_empty_iterator_fails constModel ()).2.1,
   (C10_empty_iterator_fails constModel ()).2.2 [[((), 0)]] (by decide)⟩

end ClaimsAccuracy

/-! ### Claims C4, C5, C8 (the epoch routines) -/

section EpochFacts

variable {α : Type*} [LinearOrderedField α] {I M O : Type*}

lemma trainStep_foldl (G : M → I → (Fin 10 → α) × (Fin 10 → α))
    (C : List (Fin 10 → α) → List (Fin 10) → α)
    (step : M → O → List (I × Fin 10) → M × O) :
    ∀ (bs : List (List (I × Fin 10))) (m : M) (o : O) (r : α),
      bs.foldl (trainStep G C step) (m, o, r)
        = ((runBatches step m o bs).1, (runBatches step m o bs).2,
           r + weightedLossSum G C step m o bs)
  | [], m, o, r => by simp [runBatches, weightedLossSum]
  | b :: t, m, o, r => by
      simp only [List.foldl_cons, trainStep]
      rw [trainStep_foldl G C step t]
      simp only [runBatches, weightedLossSum, Prod.mk.injEq, true_and]
      ring

lemma validStep_foldl (G : M → I → (Fin 10 → α) × (Fin 10 → α))
    (C : List (Fin 10 → α) → List (Fin 10) → α) (m : M) (o : O) :
    ∀ (bs : List (List (I × Fin 10))) (r : α),
      bs.foldl (validStep G C m) r
        = r + weightedLossSum G C (fun a b _ => (a, b)) m o bs
  | [], r => by simp [weightedLossSum]
  | b :: t, r => by
      simp only [List.foldl_cons, validStep]
      rw [validStep_foldl G C m o t]
      simp only [weightedLossSum]
      ring

end EpochFacts

/-- Concrete probe data for the epoch routines: a model is one rational
parameter broadcast to all class scores. -/
def Gq : ℚ → Unit → (Fin 10 → ℚ) × (Fin 10 → ℚ) :=
  fun m _ => (fun _ => m, fun _ => m)

/-- Concrete probe criterion: the loss of a batch is its number of labels. -/
def Cq : List (Fin 10 → ℚ) → List (Fin 10) → ℚ :=
  fun _ y => (y.length : ℚ)

/-- Concrete probe backward-and-step update: add the batch size to the model
parameter. -/
def stepq : ℚ → Unit → List (Unit × Fin 10) → ℚ × Unit :=
  fun m _ b => (m + (b.length : ℚ), ())

/-- Concrete probe loader: a fixed tiny synthetic dataset of 8 samples with
deterministic labels, split into 2 batches of 4 samples. -/
def tinyLoader : Loader Unit :=
  { dataset := [((), 0), ((), 1), ((), 2), ((), 3),
                ((), 4), ((), 5), ((), 6), ((), 7)],
    batches := [[((), 0), ((), 1), ((), 2), ((), 3)],
                [((), 4), ((), 5), ((), 6), ((), 7)]] }

section ClaimsEpoch

variable {α : Type*} [LinearOrderedField α] {I M O : Type*}

/-- Claim C4: one call to train processes the batches in the iterator's
order, threading the model and optimizer state through the per-batch backward
and optimizer step, accumulates the running sum of each batch's loss (taken
at the model state current when that batch is processed) times that batch's
size, and returns as epoch loss this running sum divided by the total number
of samples (the dataset size, which equals the summed batch sizes for a
loader whose batches are a permutation of its dataset). -/
theorem C4_train_epoch (G : M → I → (Fin 10 → α) × (Fin 10 → α))
    (C : List (Fin 10 → α) → List (Fin 10) → α)
    (step : M → O → List (I × Fin 10) → M × O)
    (L : Loader I) (m : M) (o : O)
    (h : L.batches.flatten.Perm L.dataset) :
    train G C step L m o =
      ((runBatches step m o L.batches).1, (runBatches step m o L.batches).2,
       weightedLossSum G C step m o L.batches /
         (((L.batches.map List.length).sum : ℕ) : α)) := by
  have hlen : L.dataset.length = (L.batches.map List.length).sum := by
    rw [← h.length_eq, List.length_flatten]
  unfold train
  rw [trainStep_foldl, hlen, zero_add]

/-- Witness for C4 at the tiny synthetic loader of 2 batches of 4 samples. -/
theorem C4_train_epoch_witness :
    train Gq Cq stepq tinyLoader 0 () =
      ((runBatches stepq 0 () tinyLoader.batches).1,
       (runBatches stepq 0 () tinyLoader.batches).2,
       weightedLossSum Gq Cq stepq 0 () tinyLoader.batches /
         (((tinyLoader.batches.map List.length).sum : ℕ) : ℚ)) :=
  C4_train_epoch Gq Cq stepq tinyLoader 0 () (List.Perm.refl _)

/-- Claim C5: one call to validate returns the model it was given, unchanged
(no backward pass and no optimizer step occur in its body), and its loss is
accumulated the same way as the training epoch routine accumulates its own:
it equals the epoch loss train would report if the backward and optimizer
step changed nothing. -/
theorem C5_validate_frame (G : M → I → (Fin 10 → α) × (Fin 10 → α))
    (C : List (Fin 10 → α) → List (Fin 10) → α)
    (L : Loader I) (m : M) (o : O) :
    (validate G C L m).1 = m ∧
    (validate G C L m).2 =
      (train G C (fun a b _ => (a, b)) L m o).2.2 := by
  refine ⟨rfl, ?_⟩
  unfold validate train
  rw [trainStep_foldl, validStep_foldl G C m o]

/-- Claim C8: training is deterministic. The seeded run fixes the initial
model, the optimizer state and the dataset; one training epoch is a pure
function of these, so two runs from equal initial model and optimizer state
over equal data, with equal forward, criterion and update functions, produce
the same training loss value. In particular, for a fixed tiny synthetic
dataset and one epoch, the loss is one specific value (pinned in the
witness). -/
theorem C8_train_deterministic
    (Ga Gb : M → I → (Fin 10 → α) × (Fin 10 → α))
    (Ca Cb : List (Fin 10 → α) → List (Fin 10) → α)
    (sa sb : M → O → List (I × Fin 10) → M × O)
    (La Lb : Loader I) (ma mb : M) (oa ob : O)
    (hG : Ga = Gb) (hC : Ca = Cb) (hs : sa = sb)
    (hL : La = Lb) (hm : ma = mb) (ho : oa = ob) :
    (train Ga Ca sa La ma oa).2.2 = (train Gb Cb sb Lb mb ob).2.2 := by
  subst hG hC hs hL hm ho
  rfl

/-- Witness for C8: on the fixed tiny synthetic dataset (2 batches of 4
samples, deterministic labels) two runs of one epoch agree, and the training
loss is the pinned value 4. -/
theorem C8_train_deterministic_witness :
    (train Gq Cq stepq tinyLoader 0 ()).2.2
        = (train Gq Cq stepq tinyLoader 0 ()).2.2 ∧
    (train Gq Cq stepq tinyLoader 0 ()).2.2 = 4 :=
  ⟨C8_train_deterministic Gq Gq Cq Cq stepq stepq tinyLoader tinyLoader
      0 0 () () rfl rfl rfl rfl rfl rfl,
   by norm_num [train, trainStep, tinyLoader, Cq, stepq, Gq]⟩

end ClaimsEpoch

/-! ### Claims C6, C7 (the training loop) -/

section LoopFacts

variable {α : Type*} [LinearOrderedField α] {I M O : Type*}

lemma epochStep_foldl_lengths (G : M → I → (Fin 10 → α) × (Fin 10 → α))
    (C : List (Fin 10 → α) → List (Fin 10) → α)
    (step : M → O → List (I × Fin 10) → M × O)
    (TL VL : Loader I) (p : ℕ) :
    ∀ (n : ℕ) (s : M × O × List α × List α × List (ℕ × Option α × Option α)),
      (((List.range n).foldl (epochStep G C step TL VL p) s).2.2.1.length
          = s.2.2.1.length + n) ∧
      (((List.range n).foldl (epochStep G C step TL VL p) s).2.2.2.1.length
          = s.2.2.2.1.length + n) := by
  intro n
  induction n with
  | zero => intro s; simp
  | succ k ih =>
      intro s
      rw [List.range_succ, List.foldl_append, List.foldl_cons, List.foldl_nil]
      obtain ⟨h1, h2⟩ := ih s
      constructor
      · simp only [epochStep, List.length_append, List.length_singleton, h1]
        omega
      · simp only [epochStep, List.length_append, List.length_singleton, h2]
        omega

lemma epochStep_foldl_log (G : M → I → (Fin 10 → α) × (Fin 10 → α))
    (C : List (Fin 10 → α) → List (Fin 10) → α)
    (step : M → O → List (I × Fin 10) → M × O)
    (TL VL : Loader I) (p : ℕ) :
    ∀ (n : ℕ) (s : M × O × List α × List α × List (ℕ × Option α × Option α)),
      ((List.range n).foldl (epochStep G C step TL VL p) s).2.2.2.2.map
          Prod.fst
        = s.2.2.2.2.map Prod.fst
          ++ (List.range n).filter fun e => decide (e % p = p - 1) := by
  intro n
  induction n with
  | zero => intro s; simp
  | succ k ih =>
      intro s
      rw [List.range_succ, List.foldl_append, List.foldl_cons, List.foldl_nil,
        List.filter_append]
      by_cases hc : k % p = p - 1
      · simp [epochStep, hc, ih s]
      · simp [epochStep, hc, ih s]

lemma mod_eq_pred_iff (p e : ℕ) (hp : 1 ≤ p) :
    e % p = p - 1 ↔ ∃ j, 1 ≤ j ∧ e = j * p - 1 := by
  constructor
  · intro h
    refine ⟨e / p + 1, Nat.le_add_left 1 _, ?_⟩
    have h2 : p * (e / p) + e % p = e := Nat.div_add_mod e p
    have h3 : (e / p + 1) * p = p * (e / p) + p := by ring
    rw [h3]
    generalize p * (e / p) = A at h2 ⊢
    omega
  · rintro ⟨j, hj, rfl⟩
    obtain ⟨k, rfl⟩ := Nat.exists_eq_add_of_le hj
    have h4 : (1 + k) * p - 1 = p - 1 + k * p := by
      have h5 : (1 + k) * p = p + k * p := by ring
      generalize k * p = B at h5 ⊢
      omega
    rw [h4, Nat.add_mul_mod_self_right, Nat.mod_eq_of_lt (by omega)]

end LoopFacts

section ClaimsLoop

variable {α : Type*} [LinearOrderedField α] {I M O : Type*}

/-- Claim C6: after a full run of the training loop over N epochs, the
training-loss history and the validation-loss history each have length
exactly N, and each epoch appends exactly one value to each history (running
one more epoch extends each history by exactly one value). -/
theorem C6_history_lengths (G : M → I → (Fin 10 → α) × (Fin 10 → α))
    (C : List (Fin 10 → α) → List (Fin 10) → α)
    (step : M → O → List (I × Fin 10) → M × O)
    (TL VL : Loader I) (m : M) (o : O) (p epochs : ℕ) :
    ((training_loop G C step TL VL m o epochs p).2.2.1.1.length = epochs ∧
     (training_loop G C step TL VL m o epochs p).2.2.1.2.length = epochs) ∧
    ∀ n : ℕ, ∃ a b,
      (training_loop G C step TL VL m o (n + 1) p).2.2.1.1
          = (training_loop G C step TL VL m o n p).2.2.1.1 ++ [a] ∧
      (training_loop G C step TL VL m o (n + 1) p).2.2.1.2
          = (training_loop G C step TL VL m o n p).2.2.1.2 ++ [b] := by
  constructor
  · obtain ⟨h1, h2⟩ :=
      epochStep_foldl_lengths G C step TL VL p epochs (m, o, ([], [], []))
    exact ⟨by simpa using h1, by simpa using h2⟩
  · intro n
    unfold training_loop
    rw [List.range_succ, List.foldl_append, List.foldl_cons, List.foldl_nil]
    exact ⟨_, _, rfl, rfl⟩

/-- Claim C7: for every print interval k with k ≥ 1, the training loop
measures accuracy and emits one log line exactly on the epochs whose index e
satisfies e % k = k - 1, which are precisely the indices of the form
j * k - 1 for j ≥ 1 (the epochs k-1, 2k-1, 3k-1, ... that lie below the
epoch count), each logged exactly once, and on no other epoch. -/
theorem C7_logging_cadence (G : M → I → (Fin 10 → α) × (Fin 10 → α))
    (C : List (Fin 10 → α) → List (Fin 10) → α)
    (step : M → O → List (I × Fin 10) → M × O)
    (TL VL : Loader I) (m : M) (o : O) (epochs p : ℕ) (hp : 1 ≤ p) :
    (∀ e : ℕ,
      e ∈ (training_loop G C step TL VL m o epochs p).2.2.2.map Prod.fst ↔
        (e < epochs ∧ ∃ j, 1 ≤ j ∧ e = j * p - 1)) ∧
    ((training_loop G C step TL VL m o epochs p).2.2.2.map Prod.fst).Nodup
    := by
  have hlog : (training_loop G C step TL VL m o epochs p).2.2.2.map Prod.fst
      = (List.range epochs).filter fun e => decide (e % p = p - 1) := by
    unfold training_loop
    simpa using epochStep_foldl_log G C step TL VL p epochs (m, o, ([], [], []))
  rw [hlog]
  constructor
  · intro e
    rw [List.mem_filter, List.mem_range, decide_eq_true_eq,
      mod_eq_pred_iff p e hp]
  · exact (List.nodup_range epochs).filter _

/-- Witness for C7: with interval 2 and 3 epochs, epoch 1 (= 1 * 2 - 1) is
logged. -/
theorem C7_logging_cadence_witness :
    1 ∈ (training_loop Gq Cq stepq tinyLoader tinyLoader 0 () 3 2).2.2.2.map
      Prod.fst :=
  ((C7_logging_cadence Gq Cq stepq tinyLoader tinyLoader 0 () 3 2
      (by norm_num)).1 1).mpr ⟨by norm_num, 1, le_refl 1, by norm_num⟩

end ClaimsLoop

/-! ### Claim C9 (arg-max of probs equals arg-max of logits) -/

lemma maxIdx_congr {α : Type*} [LinearOrderedField α] {v w : Fin 10 → α}
    (h : ∀ i j, v i < v j ↔ w i < w j) : maxIdx v = maxIdx w := by
  unfold maxIdx
  have key : ∀ (l : List (Fin 10)) (a : Fin 10),
      l.foldl (fun a i => if v a < v i then i else a) a =
        l.foldl (fun a i => if w a < w i then i else a) a := by
    intro l
    induction l with
    | nil => intro a; rfl
    | cons i t ih =>
        intro a
        simp only [List.foldl_cons]
        have hif : (if v a < v i then i else a) = if w a < w i then i else a
          := by
          by_cases hc : v a < v i
          · rw [if_pos hc, if_pos ((h a i).mp hc)]
          · rw [if_neg hc, if_neg fun hw => hc ((h a i).mpr hw)]
        rw [hif]
        exact ih _
  exact key _ 0

lemma softmax_lt_iff (v : Fin 10 → ℝ) (i j : Fin 10) :
    softmax v i < softmax v j ↔ v i < v j := by
  unfold softmax
  rw [div_lt_div_iff_of_pos_right (sum_exp_pos (by norm_num) v),
    Real.exp_lt_exp]

lemma maxIdx_softmax (v : Fin 10 → ℝ) : maxIdx (softmax v) = maxIdx v :=
  maxIdx_congr fun i j => softmax_lt_iff v i j

/-- Claim C9: for every LeNet5 model and every input, the predicted label
obtained as the arg-max of the probability output equals the arg-max of the
logits output (softmax is strictly monotone within a row), and consequently
the accuracy metric yields the same value on every batch iterator whether its
predictions are taken from the probability rows or from the logits rows. -/
theorem C9_argmax_probs_eq_argmax_logits (net : LeNet5)
    (L : List (List (ImageT × Fin 10))) :
    (∀ x : ImageT, maxIdx (net.forward x).2 = maxIdx (net.forward x).1) ∧
    get_accuracy LeNet5.forward net L =
      get_accuracy_from_logits LeNet5.forward net L := by
  have key : ∀ x : ImageT,
      maxIdx (net.forward x).2 = maxIdx (net.forward x).1 := by
    intro x
    rw [forward_snd]
    exact maxIdx_softmax _
  refine ⟨key, ?_⟩
  have hpred :
      (fun s : ImageT × Fin 10 => maxIdx (LeNet5.forward net s.1).2 == s.2)
        = fun s => maxIdx (LeNet5.forward net s.1).1 == s.2 := by
    funext s
    rw [key s.1]
  unfold get_accuracy get_accuracy_from_logits accuracyLoop
  rw [hpred]

end LeNetRepo
